import Mathlib

/-!
Verification of the MSISDN bulk transform-load / sweep-delete pipeline.

Shallow embedding of the repository's scripts:
* `src/mongo-db/import_msisdn_records.sh` — primary import variant (embedded
  mongosh script, PHASE 3) and a second near-duplicate variant ("variant 2",
  the `mongo`-shell heredoc in the same file).
* `src/mongo-db/remove_msisdn_imports.js` and `src/unnamed/part_000` — the
  sweep-delete pipeline (batched find/deleteMany loop).

Conventions: the MongoDB collections are modelled as Lean lists of records;
JavaScript strings are Lean `String`s (with an explicit executable `jsTrim`,
since JS `.trim()` strips surrounding whitespace); JavaScript numbers flowing
through the progress reporter are modelled exactly by `JSVal` (an integer, or
one of the IEEE specials `Infinity`, `-Infinity`, `NaN` that division by zero
produces); timestamps are abstract `Nat`s.
-/

/-! ### JS string trimming (`doc.MSISDN.toString().trim()`) -/

/-- Drop leading whitespace characters from a character list. -/
def trimLeftChars : List Char → List Char
  | [] => []
  | c :: cs => if c.isWhitespace then trimLeftChars cs else c :: cs

/-- JS `String.prototype.trim`: strip leading and trailing whitespace.
(Defined over the character list so that it evaluates in the kernel.) -/
def jsTrim (s : String) : String :=
  ⟨(trimLeftChars (trimLeftChars s.data).reverse).reverse⟩

/-! ### Record normalization

Primary variant (import_msisdn_records.sh, embedded mongosh script):
```
var msisdn = doc.MSISDN ? doc.MSISDN.toString().trim() : null;
if (!msisdn || msisdn === "" || msisdn === "MSISDN") { stats.skipped++; continue; }
```
A missing field and the empty string are falsy; after trimming, the empty
string and the header literal `"MSISDN"` are rejected. -/

/-- Primary-variant MSISDN normalization: `some key` iff the record is valid. -/
def normalizeMsisdn : Option String → Option String
  | none => none
  | some v =>
    if v = "" then none
    else
      let t := jsTrim v
      if t = "" ∨ t = "MSISDN" then none else some t

/-- Variant-2 normalization (`if (!msisdn || msisdn === "") { stats.skipped++; continue; }`):
identical except that there is no header-literal check. -/
def normalizeMsisdnV2 : Option String → Option String
  | none => none
  | some v =>
    if v = "" then none
    else
      let t := jsTrim v
      if t = "" then none else some t

/-! ### Canonical target records and the target store -/

/-- The canonical target-store document built by both variants:
`_id` is the MSISDN itself, the remaining business fields are fixed defaults,
and the two timestamps are the run's single captured `now`. -/
structure CanonicalRecord where
  id : String
  simType : String
  simNumber : String
  status : String
  requestId : String
  allocationDate : Nat
  createdDate : Nat
deriving DecidableEq

/-- Build the canonical record exactly as both variants do. -/
def mkCanonical (now : Nat) (msisdn : String) : CanonicalRecord :=
  { id := msisdn, simType := "N/A", simNumber := "N/A",
    status := "completed", requestId := "batch-import-old-app",
    allocationDate := now, createdDate := now }

/-- The target collection, as the list of its documents. -/
abbrev Store := List CanonicalRecord

/-- Does the store already contain a document with this `_id`?
(The target collection has a unique index on `_id`.) -/
def idMem (s : Store) (k : String) : Bool :=
  s.any (fun c => decide (c.id = k))

/-- One `updateOne { filter: { _id }, update: { $setOnInsert: ... }, upsert: true }`:
insert if absent by identity, otherwise change nothing (first-write-wins). -/
def upsert (s : Store) (r : CanonicalRecord) : Store :=
  if idMem s r.id then s else s ++ [r]

/-- `bulkWrite` of a batch of `$setOnInsert` upserts: the store-level effect
is the fold of the single-document upsert. -/
def bulkUpsert (s : Store) (b : List CanonicalRecord) : Store :=
  b.foldl upsert s

/-! ### Staging records and the cursor paginator (primary variant) -/

/-- One staging-collection row: its Mongo `_id` (the strictly increasing
pagination identity, abstracted as a `Nat`) and the `MSISDN` column
(`none` when the field is missing). -/
structure RawRecord where
  oid : Nat
  MSISDN : Option String
deriving DecidableEq

/-- The `sort({ _id: 1 })` order. -/
def rawLe (a b : RawRecord) : Prop := a.oid ≤ b.oid

instance : DecidableRel rawLe := fun a b => Nat.decLe a.oid b.oid

instance : IsTotal RawRecord rawLe := ⟨fun a b => Nat.le_total a.oid b.oid⟩

instance : IsTrans RawRecord rawLe := ⟨fun _ _ _ h h2 => Nat.le_trans h h2⟩

/-- The chunked-scan query predicate: `{}` before the first chunk, and
`{ _id: { $gt: lastObjectId } }` afterwards. -/
def afterCheckpoint (lastObjectId : Option Nat) (r : RawRecord) : Bool :=
  match lastObjectId with
  | none => true
  | some l => decide (l < r.oid)

/-- One pagination sub-scan:
`db[tempCollection].find(query).sort({ _id: 1 }).limit(chunkSize)`. -/
def chunkQuery (chunkSize : Nat) (staging : List RawRecord)
    (lastObjectId : Option Nat) : List RawRecord :=
  (List.insertionSort rawLe (staging.filter (afterCheckpoint lastObjectId))).take chunkSize

/-- The `while (moreRecords)` chunked scan: drain one sub-scan, remember the
last `_id` seen, and re-open with `$gt` while the sub-scan came back full
(`moreRecords = recordsInChunk >= processBatchSize * 10`).  `fuel` bounds the
number of sub-scans; `staging.length` is always enough. -/
def scanAll : Nat → Nat → List RawRecord → Option Nat → List RawRecord
  | 0, _, _, _ => []
  | fuel + 1, chunkSize, staging, lastObjectId =>
    if h : chunkQuery chunkSize staging lastObjectId = [] then []
    else
      chunkQuery chunkSize staging lastObjectId ++
        (if chunkSize ≤ (chunkQuery chunkSize staging lastObjectId).length then
          scanAll fuel chunkSize staging
            (some (((chunkQuery chunkSize staging lastObjectId).getLast h).oid))
        else [])

/-! ### The primary run (PHASE 3 mongosh script) -/

/-- The configuration knobs the embedded script reads from the environment,
plus the single captured `now` timestamp (`var now = new Date()`). -/
structure Config where
  processBatchSize : Nat
  now : Nat
deriving DecidableEq

/-- The chunk size of a pagination sub-scan: `.limit(processBatchSize * 10)`. -/
def chunkSizeOf (cfg : Config) : Nat := cfg.processBatchSize * 10

/-- The sequence of staging records consumed by the chunked scan, in
consumption order. -/
def scanConsumed (cfg : Config) (staging : List RawRecord) : List RawRecord :=
  scanAll staging.length (chunkSizeOf cfg) staging none

/-- One `bulkWrite` call as observed on the wire: the batch submitted, the
write concern used (`0` mid-run, `1` for the final batch), and whether the
call succeeded. -/
structure WriteAttempt where
  recs : List CanonicalRecord
  writeConcern : Nat
  ok : Bool
deriving DecidableEq

/-- The mutable state of the primary run: the target store, the accumulating
batch, the `stats` counters, the pagination checkpoint `lastObjectId`, the
number of `bulkWrite` calls so far, and the trace of those calls. -/
structure RunState where
  store : Store
  batch : List CanonicalRecord
  processed : Nat
  skipped : Nat
  duplicates : Nat
  batchCount : Nat
  consumed : Nat
  lastObjectId : Option Nat
  writes : Nat
  events : List WriteAttempt
deriving DecidableEq

/-- `var stats = { processed: 0, skipped: 0, duplicates: 0, batchCount: 0, ... }`
over an initial target store. -/
def initState (s0 : Store) : RunState :=
  { store := s0, batch := [], processed := 0, skipped := 0, duplicates := 0,
    batchCount := 0, consumed := 0, lastObjectId := none, writes := 0, events := [] }

/-- One mid-run or final `bulkWrite(batch)` with its try/catch.  `fails`
says which calls (numbered in submission order) throw.  On success:
apply the upserts, `stats.processed += batch.length`, `stats.batchCount++`,
`batch = []`.  On failure the catch block prints, sleeps, and clears the
batch — the records are dropped and never re-submitted. -/
def commitBatch (fails : Nat → Bool) (writeConcern : Nat) (st : RunState)
    (b : List CanonicalRecord) : RunState :=
  if fails st.writes then
    { st with
      batch := [], writes := st.writes + 1,
      events := st.events ++ [⟨b, writeConcern, false⟩] }
  else
    { st with
      store := bulkUpsert st.store b, batch := [],
      processed := st.processed + b.length, batchCount := st.batchCount + 1,
      writes := st.writes + 1, events := st.events ++ [⟨b, writeConcern, true⟩] }

/-- Processing one consumed staging record in the inner cursor loop:
update `lastObjectId`, normalize the MSISDN (skip-and-count when invalid),
push the canonical document, and commit the batch with write concern
`{ w: 0 }` once it reaches `processBatchSize`. -/
def step (cfg : Config) (fails : Nat → Bool) (st : RunState) (doc : RawRecord) :
    RunState :=
  let st1 := { st with consumed := st.consumed + 1, lastObjectId := some doc.oid }
  match normalizeMsisdn doc.MSISDN with
  | none => { st1 with skipped := st1.skipped + 1 }
  | some msisdn =>
    let b := st1.batch ++ [mkCanonical cfg.now msisdn]
    if cfg.processBatchSize ≤ b.length then commitBatch fails 0 st1 b
    else { st1 with batch := b }

/-- Draining: when the paginator is exhausted, flush the partial final batch
with the stricter write concern `{ w: 1 }` (`if (batch.length > 0) ...`).
On failure the final catch only logs. -/
def drain (fails : Nat → Bool) (st : RunState) : RunState :=
  if st.batch = [] then st
  else if fails st.writes then
    { st with writes := st.writes + 1, events := st.events ++ [⟨st.batch, 1, false⟩] }
  else
    { st with
      store := bulkUpsert st.store st.batch, batch := [],
      processed := st.processed + st.batch.length,
      writes := st.writes + 1, events := st.events ++ [⟨st.batch, 1, true⟩] }

/-- The run state after the scanning loop, before draining. -/
def scanState (cfg : Config) (fails : Nat → Bool) (s0 : Store)
    (staging : List RawRecord) : RunState :=
  (scanConsumed cfg staging).foldl (step cfg fails) (initState s0)

/-- The whole primary run: chunked scan, per-record processing, final drain. -/
def primaryRun (cfg : Config) (fails : Nat → Bool) (s0 : Store)
    (staging : List RawRecord) : RunState :=
  drain fails (scanState cfg fails s0 staging)

/-- The failure schedule of a run in which every `bulkWrite` succeeds. -/
def noFail : Nat → Bool := fun _ => false

/-- The failure schedule in which exactly the first `bulkWrite` throws. -/
def failFirst : Nat → Bool := fun n => decide (n = 0)

/-- The canonical records a list of staging rows normalizes to (in order,
invalid rows dropped). -/
def validRecords (cfg : Config) (l : List RawRecord) : List CanonicalRecord :=
  l.filterMap (fun d => (normalizeMsisdn d.MSISDN).map (mkCanonical cfg.now))

/-- The valid business keys of a list of staging rows. -/
def validKeys (l : List RawRecord) : List String :=
  l.filterMap (fun d => normalizeMsisdn d.MSISDN)

/-- The store a run state denotes once its pending batch is flushed. -/
def denote (st : RunState) : Store := bulkUpsert st.store st.batch

/-- Comparison of checkpoints, where `none` (no record consumed yet)
precedes everything. -/
def checkpointLe : Option Nat → Option Nat → Prop
  | none, _ => True
  | some _, none => False
  | some a, some b => a ≤ b

/-- The checkpoint (`lastObjectId`) after the first `n` records of the run
have been consumed. -/
def checkpointAfter (cfg : Config) (fails : Nat → Bool) (s0 : Store)
    (staging : List RawRecord) (n : Nat) : Option Nat :=
  (((scanConsumed cfg staging).take n).foldl (step cfg fails) (initState s0)).lastObjectId

/-! ### Variant 2 (the `mongo`-shell heredoc, RU-optimized script) -/

/-- Variant-2 configuration: `PROCESS_BATCH_SIZE`, `MEMORY_RESET`, and the
captured `now`. -/
structure ConfigV2 where
  processBatchSize : Nat
  memoryReset : Nat
  now : Nat
deriving DecidableEq

/-- Variant-2 run state: variant 2 additionally keeps the in-memory dedup
set `msisdnSet` and counts `stats.duplicates`; it has no checkpoint (it uses
one `noCursorTimeout` cursor over the whole staging collection). -/
structure RunStateV2 where
  store : Store
  msisdnSet : List String
  batch : List CanonicalRecord
  processed : Nat
  skipped : Nat
  duplicates : Nat
  batchCount : Nat
  consumed : Nat
deriving DecidableEq

/-- Variant-2 initial state over an initial target store. -/
def initStateV2 (s0 : Store) : RunStateV2 :=
  { store := s0, msisdnSet := [], batch := [], processed := 0, skipped := 0,
    duplicates := 0, batchCount := 0, consumed := 0 }

/-- Variant-2 `bulkWrite(batch, { ordered: false })` of plain `insertOne`s:
each insert succeeds iff its `_id` is absent (unique index); an unordered
bulk write applies the successful inserts and reports an error if any
insert hit an existing `_id`.  Returns the new store and the error flag. -/
def insertBatch (s : Store) (b : List CanonicalRecord) : Store × Bool :=
  b.foldl
    (fun acc r => if idMem acc.1 r.id then (acc.1, true) else (acc.1 ++ [r], acc.2))
    (s, false)

/-- Variant-2 batch commit with its try/catch: on success `processed` and
`batchCount` advance and every `MEMORY_RESET` batches the dedup set is
cleared (`msisdnSet = {}`); on a thrown bulk error the catch sleeps and
clears the batch, dropping its accounting. -/
def commitBatchV2 (memoryReset : Nat) (st : RunStateV2) : RunStateV2 :=
  let r := insertBatch st.store st.batch
  if r.2 then
    { st with store := r.1, batch := [] }
  else
    let st2 := { st with
                 store := r.1, processed := st.processed + st.batch.length,
                 batchCount := st.batchCount + 1, batch := [] }
    if st2.batchCount % memoryReset = 0 then { st2 with msisdnSet := [] } else st2

/-- Variant-2 per-record processing: normalize (no header-literal check),
look the key up in `msisdnSet` (`if (msisdnSet[msisdn]) { stats.duplicates++;
continue; }`), mark it, build the document and push `insertOne`, committing
once the batch is full. -/
def stepV2 (cfg : ConfigV2) (st : RunStateV2) (doc : RawRecord) : RunStateV2 :=
  let st1 := { st with consumed := st.consumed + 1 }
  match normalizeMsisdnV2 doc.MSISDN with
  | none => { st1 with skipped := st1.skipped + 1 }
  | some msisdn =>
    if msisdn ∈ st1.msisdnSet then { st1 with duplicates := st1.duplicates + 1 }
    else
      let st2 := { st1 with
                   msisdnSet := msisdn :: st1.msisdnSet,
                   batch := st1.batch ++ [mkCanonical cfg.now msisdn] }
      if cfg.processBatchSize ≤ st2.batch.length then
        commitBatchV2 cfg.memoryReset st2
      else st2

/-- Variant-2 final-batch flush (`if (batch.length > 0) ...`, plain
`bulkWrite` with default write concern). -/
def drainV2 (st : RunStateV2) : RunStateV2 :=
  if st.batch = [] then st
  else
    let r := insertBatch st.store st.batch
    if r.2 then { st with store := r.1, batch := [] }
    else
      { st with store := r.1, processed := st.processed + st.batch.length, batch := [] }

/-- The whole variant-2 run: one full-collection cursor in natural order,
per-record processing, final flush. -/
def runV2 (cfg : ConfigV2) (s0 : Store) (staging : List RawRecord) : RunStateV2 :=
  drainV2 (staging.foldl (stepV2 cfg) (initStateV2 s0))

/-! ### The sweep-delete pipeline
(`remove_msisdn_imports.js` and `src/unnamed/part_000`) -/

/-- A document of the collection the sweep-delete runs against: its `_id`
and the `MSISDN` marker field the deletion predicate tests for existence. -/
structure TargetDoc where
  id : Nat
  MSISDN : Option String
deriving DecidableEq

/-- The deletion predicate `{ MSISDN: { $exists: true } }`. -/
def hasMarker (d : TargetDoc) : Bool := d.MSISDN.isSome

/-- `find({ MSISDN: { $exists: true } }).limit(batchSize)`. -/
def findBatch (batchSize : Nat) (coll : List TargetDoc) : List TargetDoc :=
  (coll.filter hasMarker).take batchSize

/-- `deleteMany({ _id: { $in: idsToDelete } })`. -/
def deleteManyByIds (ids : List Nat) (coll : List TargetDoc) : List TargetDoc :=
  coll.filter (fun d => !(decide (d.id ∈ ids)))

/-- The sweep-delete loop: select up to `batchSize` matching documents,
extract their `_id`s, delete by `_id`, and stop when a selection comes back
empty.  Returns the final collection and the number of deletion passes.
`fuel` bounds the iterations; `matchCount coll` is always enough. -/
def sweepLoop : Nat → Nat → List TargetDoc → List TargetDoc × Nat
  | 0, _, coll => (coll, 0)
  | fuel + 1, batchSize, coll =>
    if (findBatch batchSize coll).map TargetDoc.id = [] then (coll, 0)
    else
      ((sweepLoop fuel batchSize
          (deleteManyByIds ((findBatch batchSize coll).map TargetDoc.id) coll)).1,
        (sweepLoop fuel batchSize
          (deleteManyByIds ((findBatch batchSize coll).map TargetDoc.id) coll)).2 + 1)

/-- The number of documents matching the deletion predicate. -/
def matchCount (coll : List TargetDoc) : Nat := (coll.filter hasMarker).length

/-! ### The progress reporter (primary variant, lines 222–236)

JavaScript numbers are modelled exactly: every arithmetic result the
reporter produces is an integer, `Infinity`, `-Infinity`, or `NaN`
(`Math.round`/`Math.floor` are fused with the division they wrap; on exact
rationals `(p / t) * 100 = (100 * p) / t` and `p / (ms / 1000) = (1000 * p) / ms`). -/

/-- A JavaScript number as the reporter computes them. -/
inductive JSVal where
  | int : ℤ → JSVal
  | posInf : JSVal
  | negInf : JSVal
  | nan : JSVal
deriving DecidableEq

/-- `Math.round (a / b)` for integers with `b ≠ 0`: round half toward `+∞`. -/
def roundHalfUpDiv (a b : ℤ) : ℤ :=
  let a2 := if b < 0 then -a else a
  let b2 := if b < 0 then -b else b
  Int.fdiv (2 * a2 + b2) (2 * b2)

/-- `Math.floor (a / b)` for integers with `b ≠ 0`. -/
def floorDivInt (a b : ℤ) : ℤ :=
  let a2 := if b < 0 then -a else a
  let b2 := if b < 0 then -b else b
  Int.fdiv a2 b2

/-- The JS value of `a / 0`: `Infinity`, `-Infinity`, or `NaN` by the sign of `a`. -/
def jsDivSign (a : ℤ) : JSVal :=
  if 0 < a then .posInf else if a < 0 then .negInf else .nan

/-- `Math.round (a / b)` on JS values: division by zero yields an infinity
(or `NaN`), infinities and `NaN` propagate through `Math.round`. -/
def jsRoundDiv : JSVal → JSVal → JSVal
  | .nan, _ => .nan
  | _, .nan => .nan
  | .int a, .int b => if b = 0 then jsDivSign a else .int (roundHalfUpDiv a b)
  | .int _, .posInf => .int 0
  | .int _, .negInf => .int 0
  | .posInf, .int b => if b < 0 then .negInf else .posInf
  | .negInf, .int b => if b < 0 then .posInf else .negInf
  | .posInf, _ => .nan
  | .negInf, _ => .nan

/-- `Math.floor (a / b)` on JS values. -/
def jsFloorDiv : JSVal → JSVal → JSVal
  | .nan, _ => .nan
  | _, .nan => .nan
  | .int a, .int b => if b = 0 then jsDivSign a else .int (floorDivInt a b)
  | .int _, .posInf => .int 0
  | .int _, .negInf => .int 0
  | .posInf, .int b => if b < 0 then .negInf else .posInf
  | .negInf, .int b => if b < 0 then .posInf else .negInf
  | .posInf, _ => .nan
  | .negInf, _ => .nan

/-- JS `a % b`: `NaN` when the dividend is infinite or the divisor is zero,
the dividend when the divisor is infinite, else the truncated remainder. -/
def jsMod : JSVal → JSVal → JSVal
  | .nan, _ => .nan
  | _, .nan => .nan
  | .posInf, _ => .nan
  | .negInf, _ => .nan
  | .int a, .int b => if b = 0 then .nan else .int (a - b * Int.tdiv a b)
  | .int a, .posInf => .int a
  | .int a, .negInf => .int a

/-- JS subtraction on these values. -/
def jsSub : JSVal → JSVal → JSVal
  | .nan, _ => .nan
  | _, .nan => .nan
  | .int a, .int b => .int (a - b)
  | .int _, .posInf => .negInf
  | .int _, .negInf => .posInf
  | .posInf, .int _ => .posInf
  | .negInf, .int _ => .negInf
  | .posInf, .posInf => .nan
  | .posInf, .negInf => .posInf
  | .negInf, .posInf => .negInf
  | .negInf, .negInf => .nan

/-- JS `Math.min` (returns `NaN` if either argument is `NaN`). -/
def jsMin : JSVal → JSVal → JSVal
  | .nan, _ => .nan
  | _, .nan => .nan
  | .int a, .int b => .int (min a b)
  | .int a, .posInf => .int a
  | .posInf, .int b => .int b
  | .negInf, _ => .negInf
  | _, .negInf => .negInf
  | .posInf, .posInf => .posInf

/-- JS `a > b` (every comparison with `NaN` is false). -/
def jsGtB : JSVal → JSVal → Bool
  | .nan, _ => false
  | _, .nan => false
  | .int a, .int b => decide (b < a)
  | .posInf, .posInf => false
  | .posInf, _ => true
  | _, .posInf => false
  | .int _, .negInf => true
  | .negInf, _ => false

/-- What one progress block emits: the derived speed and percentage, the
rounded `remaining` seconds, and the ETA pair `(minutes, seconds)` printed
iff `remaining > 0` (`eta = none` means no ETA line). -/
structure ProgressReport where
  speed : JSVal
  percent : JSVal
  remaining : JSVal
  eta : Option (JSVal × JSVal)
deriving DecidableEq

/-- The progress block of the primary variant:
```
var elapsed = (new Date() - stats.startTime)/1000;
var speed = Math.round(stats.processed/elapsed);
var percent = Math.min(100, Math.round((stats.processed / totalRecords) * 100));
const remaining = Math.round((totalRecords - stats.processed) / speed);
if (remaining > 0) { print(`... ${Math.floor(remaining/60)}m ${remaining%60}s`); }
```
parametrized by the counters and the elapsed wall-clock milliseconds. -/
def progressReport (processed totalRecords elapsedMs : ℤ) : ProgressReport :=
  let speed := jsRoundDiv (.int (1000 * processed)) (.int elapsedMs)
  let percent := jsMin (.int 100) (jsRoundDiv (.int (100 * processed)) (.int totalRecords))
  let remaining := jsRoundDiv (jsSub (.int totalRecords) (.int processed)) speed
  { speed := speed, percent := percent, remaining := remaining,
    eta := if jsGtB remaining (.int 0) then
        some (jsFloorDiv remaining (.int 60), jsMod remaining (.int 60))
      else none }

/-! ### Concrete inputs used by witnesses and counterexamples -/

/-- A tiny primary configuration: batches of one, run timestamp 7. -/
def cfgOne : Config := { processBatchSize := 1, now := 7 }

/-- A primary configuration with batches of two (the spec's scenario size). -/
def cfgTwo : Config := { processBatchSize := 2, now := 7 }

/-- Two valid staging rows with keys "A" and "B". -/
def stagingAB : List RawRecord := [⟨1, some "A"⟩, ⟨2, some "B"⟩]

/-- Three valid staging rows, out of insertion order. -/
def stagingABC : List RawRecord := [⟨2, some "B"⟩, ⟨1, some "A"⟩, ⟨3, some "C"⟩]

/-- The spec's scenario staging area: `["263771000001", "", "263771000001"]`. -/
def stagingDup : List RawRecord :=
  [⟨1, some "263771000001"⟩, ⟨2, some ""⟩, ⟨3, some "263771000001"⟩]

/-- Variant-2 configuration as in the script
(`PROCESS_BATCH_SIZE=5000`, `MEMORY_RESET=200`). -/
def cfgV2 : ConfigV2 := { processBatchSize := 5000, memoryReset := 200, now := 7 }

/-- A staging area whose only row carries the header literal as its key. -/
def stagingHeader : List RawRecord := [⟨1, some "MSISDN"⟩]

/-- A small sweep-delete collection: three marked documents, two unmarked. -/
def collMixed : List TargetDoc :=
  [⟨1, some "263001"⟩, ⟨2, none⟩, ⟨3, some "263002"⟩, ⟨4, none⟩, ⟨5, some "263003"⟩]

/-! ## Store lemmas: the idempotent `$setOnInsert` upsert -/

theorem idMem_eq_true_iff {s : Store} {k : String} :
    idMem s k = true ↔ ∃ c ∈ s, c.id = k := by
  simp [idMem, List.any_eq_true]

theorem upsert_of_idMem {s : Store} {r : CanonicalRecord}
    (h : idMem s r.id = true) : upsert s r = s := by
  simp [upsert, h]

theorem mem_upsert_of_mem {s : Store} {r c : CanonicalRecord} (h : c ∈ s) :
    c ∈ upsert s r := by
  unfold upsert
  split
  · exact h
  · exact List.mem_append_left _ h

theorem idMem_upsert (s : Store) (r : CanonicalRecord) (k : String) :
    idMem (upsert s r) k = (idMem s k || decide (r.id = k)) := by
  unfold upsert
  split
  · rename_i h
    by_cases hrk : r.id = k
    · rw [← hrk, h]
      simp
    · simp [hrk]
  · simp [idMem, List.any_append]

theorem bulkUpsert_nil (s : Store) : bulkUpsert s [] = s := rfl

theorem bulkUpsert_append (s : Store) (a b : List CanonicalRecord) :
    bulkUpsert s (a ++ b) = bulkUpsert (bulkUpsert s a) b :=
  List.foldl_append _ _ _ _

theorem idMem_bulkUpsert (s : Store) (l : List CanonicalRecord) (k : String) :
    idMem (bulkUpsert s l) k = (idMem s k || l.any (fun r => decide (r.id = k))) := by
  induction l generalizing s with
  | nil => simp [bulkUpsert]
  | cons r t ih =>
    have : bulkUpsert s (r :: t) = bulkUpsert (upsert s r) t := rfl
    rw [this, ih, idMem_upsert, List.any_cons, Bool.or_assoc]

theorem bulkUpsert_of_all_idMem {s : Store} {l : List CanonicalRecord}
    (h : ∀ r ∈ l, idMem s r.id = true) : bulkUpsert s l = s := by
  induction l generalizing s with
  | nil => rfl
  | cons r t ih =>
    have hs : bulkUpsert s (r :: t) = bulkUpsert (upsert s r) t := rfl
    rw [hs, upsert_of_idMem (h r (List.mem_cons_self r t))]
    exact ih fun r' hr' => h r' (List.mem_cons_of_mem _ hr')

theorem bulkUpsert_idem (s : Store) (l : List CanonicalRecord) :
    bulkUpsert (bulkUpsert s l) l = bulkUpsert s l := by
  apply bulkUpsert_of_all_idMem
  intro r hr
  rw [idMem_bulkUpsert]
  have : l.any (fun r' => decide (r'.id = r.id)) = true :=
    List.any_eq_true.mpr ⟨r, hr, by simp⟩
  rw [this, Bool.or_true]

/-! ## The store computed by a failure-free primary run -/

theorem denote_step (cfg : Config) (st : RunState) (d : RawRecord) :
    denote (step cfg noFail st d)
      = bulkUpsert (denote st)
          (((normalizeMsisdn d.MSISDN).map (mkCanonical cfg.now)).toList) := by
  unfold step
  cases h : normalizeMsisdn d.MSISDN with
  | none => simp [denote, bulkUpsert]
  | some k =>
    simp only [Option.map_some', Option.toList_some]
    split
    · simp [commitBatch, noFail, denote, bulkUpsert_append, bulkUpsert]
    · simp [denote, bulkUpsert_append, bulkUpsert]

theorem validRecords_cons (cfg : Config) (d : RawRecord) (t : List RawRecord) :
    validRecords cfg (d :: t)
      = ((normalizeMsisdn d.MSISDN).map (mkCanonical cfg.now)).toList
          ++ validRecords cfg t := by
  unfold validRecords
  cases h : normalizeMsisdn d.MSISDN <;> simp [List.filterMap_cons, h]

theorem denote_foldl (cfg : Config) (l : List RawRecord) (st : RunState) :
    denote (l.foldl (step cfg noFail) st)
      = bulkUpsert (denote st) (validRecords cfg l) := by
  induction l generalizing st with
  | nil => simp [validRecords, bulkUpsert]
  | cons d t ih =>
    rw [List.foldl_cons, ih, validRecords_cons, bulkUpsert_append, denote_step]

theorem drain_store_noFail (st : RunState) :
    (drain noFail st).store = denote st := by
  unfold drain denote
  split
  · rename_i h
    rw [h, bulkUpsert_nil]
  · simp [noFail]

theorem primaryRun_store (cfg : Config) (s0 : Store) (staging : List RawRecord) :
    (primaryRun cfg noFail s0 staging).store
      = bulkUpsert s0 (validRecords cfg (scanConsumed cfg staging)) := by
  unfold primaryRun scanState
  rw [drain_store_noFail, denote_foldl]
  have : denote (initState s0) = s0 := rfl
  rw [this]

theorem insertBatch_foldl_noop (b : List CanonicalRecord) :
    ∀ (s : Store) (e : Bool), (∀ r ∈ b, idMem s r.id = true) →
    (b.foldl
      (fun acc r => if idMem acc.1 r.id then (acc.1, true) else (acc.1 ++ [r], acc.2))
      (s, e)).1 = s := by
  induction b with
  | nil =>
    intro s e _
    rfl
  | cons r t ih =>
    intro s e h
    rw [List.foldl_cons, if_pos (h r (List.mem_cons_self r t))]
    exact ih s true fun r2 hr2 => h r2 (List.mem_cons_of_mem _ hr2)

/-- C1: Idempotent replay — for every configuration, initial target store
and staging contents, a second failure-free primary run over the same
staging contents leaves the target store exactly as the first run left it
(same records, hence same count); each individual primary-variant write is
an insert-if-absent-by-identity upsert that leaves an already-present
record's fields untouched (first-write-wins); and variant 2's plain
`insertOne` bulk write also never touches the store when the identities are
already present (the duplicate inserts merely raise a caught bulk error). -/
theorem c1_idempotent_replay (cfg : Config) (s0 : Store) (staging : List RawRecord) :
    (primaryRun cfg noFail (primaryRun cfg noFail s0 staging).store staging).store
      = (primaryRun cfg noFail s0 staging).store
    ∧ (∀ (s : Store) (r c : CanonicalRecord), c ∈ s → c.id = r.id → upsert s r = s)
    ∧ ∀ (s : Store) (b : List CanonicalRecord),
        (∀ r ∈ b, idMem s r.id = true) → (insertBatch s b).1 = s := by
  refine ⟨?_, ?_, ?_⟩
  · rw [primaryRun_store, primaryRun_store]
    exact bulkUpsert_idem _ _
  · intro s r c hc hid
    exact upsert_of_idMem (idMem_eq_true_iff.mpr ⟨c, hc, hid⟩)
  · intro s b h
    exact insertBatch_foldl_noop b s false h

/-- Witness for C1 at concrete inputs: replaying the spec's scenario staging
area leaves the store unchanged, and an upsert of an already-present
identity (with different timestamps) changes nothing. -/
theorem c1_idempotent_replay_witness :
    (mkCanonical 0 "263771000001" ∈ [mkCanonical 0 "263771000001"])
    ∧ upsert [mkCanonical 0 "263771000001"] (mkCanonical 99 "263771000001")
        = [mkCanonical 0 "263771000001"] :=
  ⟨by decide,
    (c1_idempotent_replay cfgTwo [] stagingDup).2.1 [mkCanonical 0 "263771000001"]
      (mkCanonical 99 "263771000001") (mkCanonical 0 "263771000001")
      (by decide) (by decide)⟩

/-! ## Conservation of the stats counters -/

theorem step_conservation (cfg : Config) (st : RunState) (d : RawRecord)
    (h : st.processed + st.skipped + st.duplicates + st.batch.length = st.consumed) :
    (step cfg noFail st d).processed + (step cfg noFail st d).skipped
      + (step cfg noFail st d).duplicates + (step cfg noFail st d).batch.length
      = (step cfg noFail st d).consumed := by
  unfold step
  cases hn : normalizeMsisdn d.MSISDN with
  | none => simpa using by omega
  | some k =>
    simp only []
    split
    · simp [commitBatch, noFail]
      omega
    · simp
      omega

theorem foldl_conservation (cfg : Config) (l : List RawRecord) (st : RunState)
    (h : st.processed + st.skipped + st.duplicates + st.batch.length = st.consumed) :
    (l.foldl (step cfg noFail) st).processed + (l.foldl (step cfg noFail) st).skipped
      + (l.foldl (step cfg noFail) st).duplicates
      + (l.foldl (step cfg noFail) st).batch.length
      = (l.foldl (step cfg noFail) st).consumed := by
  induction l generalizing st with
  | nil => exact h
  | cons d t ih => exact ih _ (step_conservation cfg st d h)

/-- C6 (amended): in a failure-free run,
`processed + skipped + duplicates + (pending batch size) = consumed` holds
after every consumed record — so at every reporting point (immediately
after a successful commit, where the pending batch has just been folded
into `processed` and cleared, and at the final summary after draining)
`processed + skipped + duplicates = consumed`.  When a batch write fails,
the catch block drops the batch uncounted and the equation fails by the
number of dropped records (see the counterexample). -/
theorem c6_conservation_amended (cfg : Config) (s0 : Store) :
    (∀ l : List RawRecord,
      (l.foldl (step cfg noFail) (initState s0)).processed
        + (l.foldl (step cfg noFail) (initState s0)).skipped
        + (l.foldl (step cfg noFail) (initState s0)).duplicates
        + (l.foldl (step cfg noFail) (initState s0)).batch.length
        = (l.foldl (step cfg noFail) (initState s0)).consumed)
    ∧ ∀ staging : List RawRecord,
      (primaryRun cfg noFail s0 staging).processed
        + (primaryRun cfg noFail s0 staging).skipped
        + (primaryRun cfg noFail s0 staging).duplicates
        = (primaryRun cfg noFail s0 staging).consumed := by
  constructor
  · intro l
    exact foldl_conservation cfg l (initState s0) (by simp [initState])
  · intro staging
    have h := foldl_conservation cfg (scanConsumed cfg staging) (initState s0)
      (by simp [initState])
    unfold primaryRun scanState
    by_cases hb :
        ((scanConsumed cfg staging).foldl (step cfg noFail) (initState s0)).batch = []
    · rw [hb] at h
      simp only [List.length_nil] at h
      simp [drain, hb]
      omega
    · simp [drain, hb, noFail]
      omega

/-- C6 counterexample: in the run over staging rows `A`, `B` (batch size 1)
whose first `bulkWrite` throws, the final summary — a reporting point —
shows `processed + skipped + duplicates = 1` although 2 raw records were
consumed: the failed batch's record was dropped uncounted. -/
theorem c6_conservation_counterexample :
    (primaryRun cfgOne failFirst [] stagingAB).processed
      + (primaryRun cfgOne failFirst [] stagingAB).skipped
      + (primaryRun cfgOne failFirst [] stagingAB).duplicates = 1
    ∧ (primaryRun cfgOne failFirst [] stagingAB).consumed = 2 := by
  decide

/-- C2: the Batch Writer does NOT retry a failed batch.  In the run over
staging rows `A`, `B` (batch size 1) whose first `bulkWrite` throws, the
wire trace shows exactly two write attempts — the failed `[A]` and the
later `[B]` — so the batch `[A]` was submitted exactly once (never
re-submitted after the backoff sleep), its record is missing from the
final store, and its accounting is lost.  This matches the catch block
`print("...Retrying..."); sleep(3000); batch = [];`, which clears the
batch instead of re-submitting it, contradicting both the claim and the
code's own "Retrying..." log line. -/
theorem c2_failed_batch_never_resubmitted :
    (primaryRun cfgOne failFirst [] stagingAB).events
      = [⟨[mkCanonical 7 "A"], 0, false⟩, ⟨[mkCanonical 7 "B"], 0, true⟩]
    ∧ ((primaryRun cfgOne failFirst [] stagingAB).events.countP
        (fun e => e.recs.any (fun c => decide (c.id = "A")))) = 1
    ∧ (primaryRun cfgOne failFirst [] stagingAB).store = [mkCanonical 7 "B"] := by
  decide

/-! ## Write-concern trace of a run -/

theorem foldl_events_concern (cfg : Config) (fails : Nat → Bool)
    (l : List RawRecord) (st : RunState)
    (h : ∀ e ∈ st.events, e.writeConcern = 0) :
    ∀ e ∈ (l.foldl (step cfg fails) st).events, e.writeConcern = 0 := by
  induction l generalizing st with
  | nil => exact h
  | cons d t ih =>
    apply ih
    unfold step
    cases hn : normalizeMsisdn d.MSISDN with
    | none => simpa using h
    | some k =>
      simp only []
      split
      · unfold commitBatch
        split <;>
          · simp only [List.mem_append, List.mem_singleton]
            rintro e (he | rfl)
            · exact h e he
            · rfl
      · simpa using h

/-- C8: Draining durability — in a failure-free run in which the paginator
is exhausted while a partial batch is pending, that final batch is flushed
through one last `bulkWrite` with write concern `1` (durably acknowledged),
whereas every mid-run `bulkWrite` of the scanning loop used the weaker
write concern `0`. -/
theorem c8_drain_durability (cfg : Config) (s0 : Store) (staging : List RawRecord)
    (hpend : (scanState cfg noFail s0 staging).batch ≠ []) :
    (primaryRun cfg noFail s0 staging).events
      = (scanState cfg noFail s0 staging).events
        ++ [⟨(scanState cfg noFail s0 staging).batch, 1, true⟩]
    ∧ ∀ e ∈ (scanState cfg noFail s0 staging).events,
        e.writeConcern = 0 ∧ e.writeConcern < 1 := by
  constructor
  · unfold primaryRun drain
    rw [if_neg hpend]
    simp [noFail]
  · intro e he
    have h0 : e.writeConcern = 0 :=
      foldl_events_concern cfg noFail _ (initState s0) (by simp [initState]) e he
    exact ⟨h0, by omega⟩

/-- Witness for C8: with batch size 2 and three valid staging rows, the
scanning loop leaves the record `C` pending, and the drain emits it as the
last write attempt with write concern `1`. -/
theorem c8_drain_durability_witness :
    ((scanState cfgTwo noFail [] stagingABC).batch ≠ [])
    ∧ (primaryRun cfgTwo noFail [] stagingABC).events
        = (scanState cfgTwo noFail [] stagingABC).events
          ++ [⟨(scanState cfgTwo noFail [] stagingABC).batch, 1, true⟩] :=
  ⟨by decide, (c8_drain_durability cfgTwo [] stagingABC (by decide)).1⟩

/-! ## Invalid-record filtering -/

theorem normalizeMsisdn_valid {m : Option String} {t : String}
    (h : normalizeMsisdn m = some t) : t ≠ "" ∧ t ≠ "MSISDN" := by
  cases m with
  | none => simp [normalizeMsisdn] at h
  | some v =>
    have hv : normalizeMsisdn (some v)
        = (if v = "" then none
           else if jsTrim v = "" ∨ jsTrim v = "MSISDN" then none
           else some (jsTrim v)) := rfl
    rw [hv] at h
    split_ifs at h with h1 h2
    rw [Option.some.injEq] at h
    subst h
    push_neg at h2
    exact h2

theorem validRecords_id_valid (cfg : Config) (l : List RawRecord) :
    ∀ r ∈ validRecords cfg l, r.id ≠ "" ∧ r.id ≠ "MSISDN" := by
  intro r hr
  unfold validRecords at hr
  rw [List.mem_filterMap] at hr
  obtain ⟨d, _, h⟩ := hr
  cases hn : normalizeMsisdn d.MSISDN with
  | none => rw [hn] at h; simp at h
  | some t =>
    rw [hn] at h
    simp only [Option.map_some', Option.some.injEq] at h
    rw [← h]
    exact normalizeMsisdn_valid hn

/-- C4 (amended): in the primary variant, every raw record whose business
key is missing, trims to the empty string, or equals the header literal
`"MSISDN"` is skipped — the step only increments `skipped` (and the consume
counters), leaving store and batch untouched — and consequently no record
with identity `""` or `"MSISDN"` ever enters the target store.  Variant 2
filters only missing/empty keys: a record whose key equals the header
literal is NOT filtered there — it is pushed into the write batch as a
canonical record and `skipped` is not incremented (see the counterexample
for the end-to-end write). -/
theorem c4_invalid_filtering_amended :
    (∀ (cfg : Config) (fails : Nat → Bool) (st : RunState) (doc : RawRecord),
      normalizeMsisdn doc.MSISDN = none →
      step cfg fails st doc
        = { st with
            skipped := st.skipped + 1, consumed := st.consumed + 1,
            lastObjectId := some doc.oid })
    ∧ (∀ (cfg : Config) (s0 : Store) (staging : List RawRecord),
        idMem (primaryRun cfg noFail s0 staging).store "MSISDN" = idMem s0 "MSISDN"
        ∧ idMem (primaryRun cfg noFail s0 staging).store "" = idMem s0 "")
    ∧ (∀ (cfg2 : ConfigV2) (st : RunStateV2) (doc : RawRecord),
        normalizeMsisdnV2 doc.MSISDN = none →
        stepV2 cfg2 st doc
          = { st with skipped := st.skipped + 1, consumed := st.consumed + 1 })
    ∧ (∀ (cfg2 : ConfigV2) (st : RunStateV2) (doc : RawRecord),
        doc.MSISDN = some "MSISDN" → "MSISDN" ∉ st.msisdnSet →
        st.batch.length + 1 < cfg2.processBatchSize →
        (stepV2 cfg2 st doc).batch = st.batch ++ [mkCanonical cfg2.now "MSISDN"]
        ∧ (stepV2 cfg2 st doc).skipped = st.skipped) := by
  refine ⟨?_, ?_, ?_, ?_⟩
  · intro cfg fails st doc h
    simp [step, h]
  · intro cfg s0 staging
    constructor
    · rw [primaryRun_store, idMem_bulkUpsert]
      have hfalse :
          (validRecords cfg (scanConsumed cfg staging)).any
            (fun r => decide (r.id = "MSISDN")) = false := by
        rw [List.any_eq_false]
        intro r hr
        simp [(validRecords_id_valid cfg _ r hr).2]
      rw [hfalse, Bool.or_false]
    · rw [primaryRun_store, idMem_bulkUpsert]
      have hfalse :
          (validRecords cfg (scanConsumed cfg staging)).any
            (fun r => decide (r.id = "")) = false := by
        rw [List.any_eq_false]
        intro r hr
        simp [(validRecords_id_valid cfg _ r hr).1]
      rw [hfalse, Bool.or_false]
  · intro cfg2 st doc h
    simp [stepV2, h]
  · intro cfg2 st doc hdoc hset hlen
    have hn : normalizeMsisdnV2 doc.MSISDN = some "MSISDN" := by
      rw [hdoc]; decide
    have hcond : ¬ (cfg2.processBatchSize ≤ st.batch.length + 1) := by omega
    simp [stepV2, hn, hset, hcond]

/-- C4 counterexample: variant 2 has no header-literal check, so a staging
row whose key is exactly the header literal `"MSISDN"` is written to the
target store (as a canonical record with identity `"MSISDN"`) and the
`skipped` counter stays 0 — refuting the claim for that variant. -/
theorem c4_invalid_filtering_counterexample :
    (runV2 cfgV2 [] stagingHeader).store = [mkCanonical 7 "MSISDN"]
    ∧ (runV2 cfgV2 [] stagingHeader).skipped = 0 := by
  decide

/-- Witness for C4 (amended) at a concrete input: a record whose key trims
to the empty string is skipped by the primary step, only bumping `skipped`
and the consume bookkeeping. -/
theorem c4_invalid_filtering_amended_witness :
    (normalizeMsisdn (some "  ") = none)
    ∧ step cfgOne noFail (initState []) ⟨5, some "  "⟩
        = { initState [] with
            skipped := (initState []).skipped + 1,
            consumed := (initState []).consumed + 1, lastObjectId := some 5 } :=
  ⟨by decide,
    c4_invalid_filtering_amended.1 cfgOne noFail (initState []) ⟨5, some "  "⟩
      (by decide)⟩

/-! ## Sweep-delete: per-pass analysis -/

theorem filter_comm' {α : Type} (p q : α → Bool) (l : List α) :
    (l.filter q).filter p = (l.filter p).filter q := by
  rw [List.filter_filter, List.filter_filter]
  apply List.filter_congr
  intro a _
  exact Bool.and_comm _ _

theorem eq_of_nodup_map {α β : Type} {f : α → β} {l : List α}
    (hnd : (l.map f).Nodup) {a b : α} (ha : a ∈ l) (hb : b ∈ l)
    (hf : f a = f b) : a = b := by
  induction l with
  | nil => cases ha
  | cons x t ih =>
    rw [List.map_cons, List.nodup_cons] at hnd
    rcases List.mem_cons.mp ha with rfl | ha' <;>
      rcases List.mem_cons.mp hb with rfl | hb'
    · rfl
    · exact absurd (hf ▸ List.mem_map_of_mem f hb') hnd.1
    · exfalso
      apply hnd.1
      rw [← hf]
      exact List.mem_map_of_mem f ha'
    · exact ih hnd.2 ha' hb'

theorem sweep_pass (b : Nat) (coll : List TargetDoc)
    (hnd : (coll.map TargetDoc.id).Nodup) :
    (deleteManyByIds ((findBatch b coll).map TargetDoc.id) coll).filter hasMarker
        = (coll.filter hasMarker).drop b
    ∧ (deleteManyByIds ((findBatch b coll).map TargetDoc.id) coll).filter
        (fun d => !hasMarker d) = coll.filter (fun d => !hasMarker d)
    ∧ ((deleteManyByIds ((findBatch b coll).map TargetDoc.id) coll).map
        TargetDoc.id).Nodup := by
  have hndS : ((coll.filter hasMarker).map TargetDoc.id).Nodup :=
    List.Nodup.sublist (List.Sublist.map TargetDoc.id (List.filter_sublist coll)) hnd
  have hsplit := List.take_append_drop b (coll.filter hasMarker)
  have hdisj :
      ∀ k, k ∈ ((coll.filter hasMarker).take b).map TargetDoc.id →
        k ∈ ((coll.filter hasMarker).drop b).map TargetDoc.id → False := by
    have h2 := hndS
    rw [← hsplit, List.map_append, List.nodup_append] at h2
    exact fun k h1 h2' => h2.2.2 h1 h2'
  have key_drop :
      ∀ y ∈ (coll.filter hasMarker).drop b,
        y.id ∉ (findBatch b coll).map TargetDoc.id := by
    intro y hy hmem
    rw [findBatch] at hmem
    obtain ⟨x, hx, hxy⟩ := List.mem_map.mp hmem
    exact hdisj y.id (hxy ▸ List.mem_map_of_mem _ hx) (List.mem_map_of_mem _ hy)
  refine ⟨?_, ?_, ?_⟩
  · unfold deleteManyByIds
    rw [filter_comm']
    conv_lhs => rw [← hsplit]
    rw [List.filter_append]
    have h1 : ((coll.filter hasMarker).take b).filter
        (fun d => !(decide (d.id ∈ (findBatch b coll).map TargetDoc.id))) = [] := by
      rw [List.filter_eq_nil_iff]
      intro x hx
      have : x.id ∈ (findBatch b coll).map TargetDoc.id := by
        rw [findBatch]
        exact List.mem_map_of_mem _ hx
      simp [this]
    have h2 : ((coll.filter hasMarker).drop b).filter
        (fun d => !(decide (d.id ∈ (findBatch b coll).map TargetDoc.id)))
        = (coll.filter hasMarker).drop b := by
      rw [List.filter_eq_self]
      intro y hy
      simpa using key_drop y hy
    rw [h1, h2, List.nil_append]
  · unfold deleteManyByIds
    rw [filter_comm']
    rw [List.filter_eq_self]
    intro y hy
    have hyc : y ∈ coll := List.mem_of_mem_filter hy
    have hym : hasMarker y = false := by
      have := (List.mem_filter.mp hy).2
      simpa using this
    simp only [Bool.not_eq_eq_eq_not, Bool.not_true, decide_eq_false_iff_not]
    intro hmem
    rw [findBatch] at hmem
    obtain ⟨x, hx, hxy⟩ := List.mem_map.mp hmem
    have hxS : x ∈ coll.filter hasMarker := (List.take_sublist b _).subset hx
    have hxc : x ∈ coll := List.mem_of_mem_filter hxS
    have hxm : hasMarker x = true := (List.mem_filter.mp hxS).2
    have hxeq : x = y := eq_of_nodup_map hnd hxc hyc hxy
    rw [hxeq, hym] at hxm
    exact Bool.noConfusion hxm
  · exact List.Nodup.sublist
      (List.Sublist.map TargetDoc.id (List.filter_sublist coll)) hnd

theorem ceilDiv_step {b m : Nat} (hb : 0 < b) (hm : 0 < m) :
    (m - b + b - 1) / b + 1 = (m + b - 1) / b := by
  rcases Nat.le_total m b with h | h
  · rw [Nat.sub_eq_zero_of_le h, Nat.zero_add]
    rw [Nat.div_eq_of_lt (by omega)]
    have h2 : (m + b - 1) / b = 1 := Nat.div_eq_of_lt_le (by omega) (by omega)
    omega
  · have hc : m - b + b - 1 = m - 1 := by omega
    have hc2 : m + b - 1 = (m - 1) + b := by omega
    rw [hc, hc2, Nat.add_div_right _ hb]

/-- C9: Sweep-delete termination — on a collection with unique `_id`s
containing `matchCount coll` documents matching the predicate (and no
concurrent writers), the find/limit/deleteMany loop performs exactly
`⌈matchCount / batchSize⌉` deletion passes, and when it terminates no
document matching the predicate remains. -/
theorem c9_sweep_delete_termination (batchSize fuel : Nat) (coll : List TargetDoc)
    (hb : 0 < batchSize) (hnd : (coll.map TargetDoc.id).Nodup)
    (hfuel : matchCount coll ≤ fuel) :
    (sweepLoop fuel batchSize coll).2 = (matchCount coll + batchSize - 1) / batchSize
    ∧ matchCount (sweepLoop fuel batchSize coll).1 = 0 := by
  induction fuel generalizing coll with
  | zero =>
    have hm : matchCount coll = 0 := Nat.le_zero.mp hfuel
    simp only [sweepLoop]
    constructor
    · rw [hm, Nat.zero_add, Nat.div_eq_of_lt (by omega)]
    · exact hm
  | succ n ih =>
    by_cases hm : matchCount coll = 0
    · have hS : coll.filter hasMarker = [] := List.length_eq_zero.mp hm
      have hids : (findBatch batchSize coll).map TargetDoc.id = [] := by
        rw [findBatch, hS]
        simp
      simp only [sweepLoop, hids, if_pos]
      constructor
      · rw [hm, Nat.zero_add, Nat.div_eq_of_lt (by omega)]
      · exact hm
    · have hmpos : 0 < matchCount coll := Nat.pos_of_ne_zero hm
      have hlen : 0 < ((findBatch batchSize coll).map TargetDoc.id).length := by
        rw [List.length_map, findBatch, List.length_take]
        exact lt_min_iff.mpr ⟨hb, hmpos⟩
      have hne : (findBatch batchSize coll).map TargetDoc.id ≠ [] :=
        List.ne_nil_of_length_pos hlen
      obtain ⟨hA, _, hnd2⟩ := sweep_pass batchSize coll hnd
      have hm2 : matchCount
          (deleteManyByIds ((findBatch batchSize coll).map TargetDoc.id) coll)
          = matchCount coll - batchSize := by
        unfold matchCount at *
        rw [hA, List.length_drop]
      have hfuel2 : matchCount
          (deleteManyByIds ((findBatch batchSize coll).map TargetDoc.id) coll) ≤ n := by
        rw [hm2]
        omega
      obtain ⟨ihp, ihz⟩ := ih _ hnd2 hfuel2
      simp only [sweepLoop, hne, if_neg, if_false]
      constructor
      · rw [ihp, hm2]
        exact ceilDiv_step hb hmpos
      · exact ihz

theorem sweepLoop_frame (batchSize : Nat) : ∀ (fuel : Nat) (coll : List TargetDoc),
    (coll.map TargetDoc.id).Nodup →
    (sweepLoop fuel batchSize coll).1.filter (fun d => !hasMarker d)
      = coll.filter (fun d => !hasMarker d) := by
  intro fuel
  induction fuel with
  | zero =>
    intro coll _
    rfl
  | succ n ih =>
    intro coll hnd
    by_cases hids : (findBatch batchSize coll).map TargetDoc.id = []
    · simp only [sweepLoop, hids, if_pos]
    · obtain ⟨_, hframe, hnd2⟩ := sweep_pass batchSize coll hnd
      simp only [sweepLoop, hids, if_neg, if_false]
      rw [ih _ hnd2, hframe]

/-- C10: frame property of the sweep-delete pipeline — on a collection with
unique `_id`s, every document that does not match the predicate (has no
`MSISDN` marker field) survives a complete run untouched: the non-matching
documents of the final collection are exactly (same values, same order) the
non-matching documents of the initial one, and in particular every
marker-less document is still present, because each pass deletes only by
the `_id`s returned from a find filtered on existence of the marker. -/
theorem c10_sweep_frame (fuel batchSize : Nat) (coll : List TargetDoc)
    (hnd : (coll.map TargetDoc.id).Nodup) :
    (sweepLoop fuel batchSize coll).1.filter (fun d => !hasMarker d)
      = coll.filter (fun d => !hasMarker d)
    ∧ ∀ d ∈ coll, d.MSISDN = none → d ∈ (sweepLoop fuel batchSize coll).1 := by
  have hframe := sweepLoop_frame batchSize fuel coll hnd
  refine ⟨hframe, ?_⟩
  intro d hd hnone
  have hmark : (!hasMarker d) = true := by simp [hasMarker, hnone]
  have hmem : d ∈ coll.filter (fun d => !hasMarker d) :=
    List.mem_filter.mpr ⟨hd, hmark⟩
  rw [← hframe] at hmem
  exact List.mem_of_mem_filter hmem

/-- Witness for C9: on the five-document collection with three marked
documents and batch size 2, the loop does `⌈3/2⌉ = 2` deletion passes and
leaves no marked document. -/
theorem c9_sweep_delete_termination_witness :
    (0 < 2) ∧ ((collMixed.map TargetDoc.id).Nodup) ∧ (matchCount collMixed ≤ 3)
    ∧ (sweepLoop 3 2 collMixed).2 = (matchCount collMixed + 2 - 1) / 2
    ∧ matchCount (sweepLoop 3 2 collMixed).1 = 0 :=
  ⟨by decide, by decide, by decide,
    (c9_sweep_delete_termination 2 3 collMixed (by decide) (by decide) (by decide)).1,
    (c9_sweep_delete_termination 2 3 collMixed (by decide) (by decide) (by decide)).2⟩

/-- Witness for C10: on the same mixed collection, the two marker-less
documents survive the complete sweep unchanged. -/
theorem c10_sweep_frame_witness :
    ((collMixed.map TargetDoc.id).Nodup)
    ∧ (sweepLoop 5 2 collMixed).1.filter (fun d => !hasMarker d)
        = collMixed.filter (fun d => !hasMarker d) :=
  ⟨by decide, (c10_sweep_frame 5 2 collMixed (by decide)).1⟩

/-! ## Progress-reporter safety -/

theorem jsGtB_min100 (x : JSVal) :
    jsGtB (jsMin (.int 100) x) (.int 100) = false := by
  cases x with
  | int b =>
    simp [jsMin, jsGtB]
  | posInf => simp [jsMin, jsGtB]
  | negInf => simp [jsMin, jsGtB]
  | nan => simp [jsMin, jsGtB]

/-- C7 (amended): the reported percentage is exactly
`min(100, round(processed / totalEstimate × 100))` and can never exceed
100; but the ETA is NOT numerically safe: whenever the derived speed
rounds to zero while records remain, `remaining = (total − processed) /
speed` evaluates to `Infinity`, which passes the `remaining > 0` guard,
so the ETA line is printed as the division artifacts `Infinity` minutes
and `NaN` seconds instead of being reported as indeterminate. -/
theorem c7_progress_amended (processed totalRecords elapsedMs : ℤ) :
    (progressReport processed totalRecords elapsedMs).percent
        = jsMin (.int 100) (jsRoundDiv (.int (100 * processed)) (.int totalRecords))
    ∧ jsGtB (progressReport processed totalRecords elapsedMs).percent (.int 100) = false
    ∧ ((progressReport processed totalRecords elapsedMs).speed = .int 0 →
        0 < totalRecords - processed →
        (progressReport processed totalRecords elapsedMs).eta
          = some (.posInf, .nan)) := by
  refine ⟨rfl, jsGtB_min100 _, ?_⟩
  intro hspeed hleft
  unfold progressReport at hspeed ⊢
  simp only at hspeed
  rw [hspeed]
  have hrem : jsRoundDiv (jsSub (.int totalRecords) (.int processed)) (.int 0)
      = .posInf := by
    simp [jsSub, jsRoundDiv, jsDivSign, hleft]
  simp only [hrem]
  have hgt : jsGtB JSVal.posInf (.int 0) = true := rfl
  rw [hgt]
  simp [jsFloorDiv, jsMod]

/-- C7 counterexample: at a reachable reporting state — 10 000 records
processed out of 1 000 000 after 30 000 elapsed seconds — the derived
speed rounds to zero and the report prints the ETA line with `Infinity`
minutes and `NaN` seconds, refuting "when speed is zero the ETA is
reported as indeterminate rather than producing a division artifact". -/
theorem c7_progress_counterexample :
    (progressReport 10000 1000000 30000000).speed = .int 0
    ∧ (progressReport 10000 1000000 30000000).eta = some (.posInf, .nan)
    ∧ (progressReport 10000 1000000 30000000).percent = .int 1 := by
  refine ⟨?_, ?_, ?_⟩ <;> decide

/-- Witness for C7 (amended) at the same concrete reporting state. -/
theorem c7_progress_amended_witness :
    ((progressReport 10000 1000000 30000000).speed = .int 0)
    ∧ ((0 : ℤ) < 1000000 - 10000)
    ∧ (progressReport 10000 1000000 30000000).eta = some (.posInf, .nan) :=
  ⟨by decide, by decide,
    (c7_progress_amended 10000 1000000 30000000).2.2 (by decide) (by decide)⟩

/-! ## Paginator lemmas: each sub-scan is sorted and fresh -/

theorem chunkQuery_mem {n : Nat} {staging : List RawRecord} {last : Option Nat}
    {r : RawRecord} (h : r ∈ chunkQuery n staging last) :
    r ∈ staging.filter (afterCheckpoint last) := by
  have h2 : r ∈ List.insertionSort rawLe (staging.filter (afterCheckpoint last)) :=
    (List.take_sublist _ _).subset h
  exact (List.perm_insertionSort rawLe _).mem_iff.mp h2

theorem sortedFilter_pairwise_lt (staging : List RawRecord)
    (last : Option Nat) (hnd : (staging.map RawRecord.oid).Nodup) :
    (List.insertionSort rawLe (staging.filter (afterCheckpoint last))).Pairwise
      (fun a b => a.oid < b.oid) := by
  have hF : ((staging.filter (afterCheckpoint last)).map RawRecord.oid).Nodup :=
    List.Nodup.sublist (List.Sublist.map _ (List.filter_sublist _)) hnd
  have hS : ((List.insertionSort rawLe
      (staging.filter (afterCheckpoint last))).map RawRecord.oid).Nodup :=
    ((List.perm_insertionSort rawLe _).map RawRecord.oid).nodup_iff.mpr hF
  have hsorted : List.Sorted rawLe
      (List.insertionSort rawLe (staging.filter (afterCheckpoint last))) :=
    List.sorted_insertionSort rawLe _
  have hne := (List.pairwise_map (f := RawRecord.oid)).mp hS
  exact (hsorted.and hne).imp fun h => lt_of_le_of_ne h.1 h.2

theorem chunkQuery_pairwise_lt (n : Nat) (staging : List RawRecord)
    (last : Option Nat) (hnd : (staging.map RawRecord.oid).Nodup) :
    (chunkQuery n staging last).Pairwise (fun a b => a.oid < b.oid) :=
  List.Pairwise.sublist (List.take_sublist _ _)
    (sortedFilter_pairwise_lt staging last hnd)

theorem le_getLast_of_pairwise {l : List RawRecord}
    (hp : l.Pairwise (fun a b => a.oid < b.oid)) (h : l ≠ []) :
    ∀ x ∈ l, x.oid ≤ (l.getLast h).oid := by
  intro x hx
  have hdec := List.dropLast_append_getLast h
  rw [← hdec] at hp hx
  rw [List.pairwise_append] at hp
  rcases List.mem_append.mp hx with h1 | h2
  · exact le_of_lt (hp.2.2 x h1 _ (List.mem_singleton_self _))
  · rw [List.mem_singleton] at h2
    rw [h2]

theorem scanAll_mem_gt (n : Nat) (staging : List RawRecord) :
    ∀ (fuel : Nat) (last : Option Nat) (r : RawRecord),
      r ∈ scanAll fuel n staging last → afterCheckpoint last r = true := by
  intro fuel
  induction fuel with
  | zero =>
    intro last r hr
    simp [scanAll] at hr
  | succ m ih =>
    intro last r hr
    simp only [scanAll] at hr
    by_cases hc : chunkQuery n staging last = []
    · rw [dif_pos hc] at hr
      cases hr
    · rw [dif_neg hc] at hr
      rcases List.mem_append.mp hr with h1 | h2
      · exact (List.mem_filter.mp (chunkQuery_mem h1)).2
      · by_cases hfull : n ≤ (chunkQuery n staging last).length
        · rw [if_pos hfull] at h2
          have hgt := ih _ r h2
          have hlastF := chunkQuery_mem (List.getLast_mem hc)
          have h3 := (List.mem_filter.mp hlastF).2
          cases last with
          | none => rfl
          | some l =>
            simp only [afterCheckpoint, decide_eq_true_eq] at h3 hgt ⊢
            omega
        · rw [if_neg hfull] at h2
          cases h2

theorem scanAll_pairwise (n : Nat) (staging : List RawRecord)
    (hnd : (staging.map RawRecord.oid).Nodup) :
    ∀ (fuel : Nat) (last : Option Nat),
      (scanAll fuel n staging last).Pairwise (fun a b => a.oid < b.oid) := by
  intro fuel
  induction fuel with
  | zero =>
    intro last
    simp [scanAll]
  | succ m ih =>
    intro last
    simp only [scanAll]
    by_cases hc : chunkQuery n staging last = []
    · rw [dif_pos hc]
      exact List.Pairwise.nil
    · rw [dif_neg hc]
      rw [List.pairwise_append]
      refine ⟨chunkQuery_pairwise_lt n staging last hnd, ?_, ?_⟩
      · by_cases hfull : n ≤ (chunkQuery n staging last).length
        · rw [if_pos hfull]
          exact ih _
        · rw [if_neg hfull]
          exact List.Pairwise.nil
      · intro x hx y hy
        by_cases hfull : n ≤ (chunkQuery n staging last).length
        · rw [if_pos hfull] at hy
          have hgt := scanAll_mem_gt n staging m _ y hy
          simp only [afterCheckpoint, decide_eq_true_eq] at hgt
          have hle := le_getLast_of_pairwise
            (chunkQuery_pairwise_lt n staging last hnd) hc x hx
          omega
        · rw [if_neg hfull] at hy
          cases hy

/-! ## Paginator lemmas: the chunked scan consumes exactly the staging area -/

theorem chunkQuery_eq_take (n : Nat) (staging : List RawRecord) (last : Option Nat) :
    chunkQuery n staging last
      = (List.insertionSort rawLe (staging.filter (afterCheckpoint last))).take n := rfl

theorem chunk_empty_filter_nil {n : Nat} {staging : List RawRecord} {last : Option Nat}
    (hn : 0 < n) (hc : chunkQuery n staging last = []) :
    staging.filter (afterCheckpoint last) = [] := by
  rw [chunkQuery_eq_take] at hc
  have hS : List.insertionSort rawLe (staging.filter (afterCheckpoint last)) = [] := by
    rcases List.take_eq_nil_iff.mp hc with h | h
    · omega
    · exact h
  have hp := List.perm_insertionSort rawLe (staging.filter (afterCheckpoint last))
  rw [hS] at hp
  exact hp.symm.eq_nil

theorem chunk_partial_eq_sorted {n : Nat} {staging : List RawRecord} {last : Option Nat}
    (hfull : ¬ n ≤ (chunkQuery n staging last).length) :
    chunkQuery n staging last
      = List.insertionSort rawLe (staging.filter (afterCheckpoint last)) := by
  rw [chunkQuery_eq_take] at hfull ⊢
  rw [List.length_take] at hfull
  apply List.take_of_length_le
  by_contra hgt
  push_neg at hgt
  exact hfull (by rw [Nat.min_eq_left (Nat.le_of_lt hgt)])

theorem reopened_filter_perm_drop (n : Nat) (staging : List RawRecord)
    (last : Option Nat) (hnd : (staging.map RawRecord.oid).Nodup)
    (hc : chunkQuery n staging last ≠ []) :
    (staging.filter
        (afterCheckpoint (some (((chunkQuery n staging last).getLast hc).oid)))).Perm
      ((List.insertionSort rawLe (staging.filter (afterCheckpoint last))).drop n) := by
  have hSperm := List.perm_insertionSort rawLe (staging.filter (afterCheckpoint last))
  have hPair := sortedFilter_pairwise_lt staging last hnd
  have hlast_memC := List.getLast_mem hc
  have hlast_after := (List.mem_filter.mp (chunkQuery_mem hlast_memC)).2
  have hle := le_getLast_of_pairwise (chunkQuery_pairwise_lt n staging last hnd) hc
  have hcross : ∀ y ∈ (List.insertionSort rawLe
      (staging.filter (afterCheckpoint last))).drop n,
      ((chunkQuery n staging last).getLast hc).oid < y.oid := by
    intro y hy
    have hsplit := List.take_append_drop n
      (List.insertionSort rawLe (staging.filter (afterCheckpoint last)))
    rw [← hsplit, List.pairwise_append] at hPair
    exact hPair.2.2 _ (by rw [← chunkQuery_eq_take]; exact hlast_memC) y hy
  -- Step A: re-opening over the whole staging area is the same as further
  -- filtering the previous query's result (the new bound is larger).
  have hstepA : (staging.filter (afterCheckpoint last)).filter
      (afterCheckpoint (some (((chunkQuery n staging last).getLast hc).oid)))
      = staging.filter
          (afterCheckpoint (some (((chunkQuery n staging last).getLast hc).oid))) := by
    rw [filter_comm']
    rw [List.filter_eq_self]
    intro r hr
    have hrq := (List.mem_filter.mp hr).2
    cases last with
    | none => rfl
    | some l =>
      simp only [afterCheckpoint, decide_eq_true_eq] at hrq hlast_after ⊢
      omega
  -- Step B: that further filter of the sorted sub-scan is exactly its tail.
  have hcalc : (List.insertionSort rawLe
      (staging.filter (afterCheckpoint last))).filter
      (afterCheckpoint (some (((chunkQuery n staging last).getLast hc).oid)))
      = (List.insertionSort rawLe (staging.filter (afterCheckpoint last))).drop n := by
    conv_lhs => rw [← List.take_append_drop n
      (List.insertionSort rawLe (staging.filter (afterCheckpoint last)))]
    rw [List.filter_append]
    have h1 : ((List.insertionSort rawLe
        (staging.filter (afterCheckpoint last))).take n).filter
        (afterCheckpoint (some (((chunkQuery n staging last).getLast hc).oid))) = [] := by
      rw [List.filter_eq_nil_iff]
      intro x hx
      have hxle := hle x (by rw [chunkQuery_eq_take]; exact hx)
      simp only [afterCheckpoint, decide_eq_true_eq]
      omega
    have h2 : ((List.insertionSort rawLe
        (staging.filter (afterCheckpoint last))).drop n).filter
        (afterCheckpoint (some (((chunkQuery n staging last).getLast hc).oid)))
        = (List.insertionSort rawLe (staging.filter (afterCheckpoint last))).drop n := by
      rw [List.filter_eq_self]
      intro y hy
      have := hcross y hy
      simp only [afterCheckpoint, decide_eq_true_eq]
      omega
    rw [h1, h2, List.nil_append]
  rw [← hstepA, ← hcalc]
  exact (hSperm.filter _).symm

theorem scanAll_perm (n : Nat) (staging : List RawRecord)
    (hnd : (staging.map RawRecord.oid).Nodup) (hn : 0 < n) :
    ∀ (fuel : Nat) (last : Option Nat),
      (staging.filter (afterCheckpoint last)).length ≤ fuel →
      (scanAll fuel n staging last).Perm (staging.filter (afterCheckpoint last)) := by
  intro fuel
  induction fuel with
  | zero =>
    intro last hlen
    rw [List.length_eq_zero.mp (Nat.le_zero.mp hlen)]
    simp [scanAll]
  | succ m ih =>
    intro last hlen
    simp only [scanAll]
    by_cases hc : chunkQuery n staging last = []
    · rw [dif_pos hc, chunk_empty_filter_nil hn hc]
    · rw [dif_neg hc]
      have hSperm := List.perm_insertionSort rawLe (staging.filter (afterCheckpoint last))
      by_cases hfull : n ≤ (chunkQuery n staging last).length
      · rw [if_pos hfull]
        have hdropPerm := reopened_filter_perm_drop n staging last hnd hc
        have hlen2 : (staging.filter (afterCheckpoint
            (some (((chunkQuery n staging last).getLast hc).oid)))).length ≤ m := by
          have h1 := hdropPerm.length_eq
          rw [List.length_drop] at h1
          have h2 := hSperm.length_eq
          omega
        have hrec := ih (some (((chunkQuery n staging last).getLast hc).oid)) hlen2
        refine List.Perm.trans (List.Perm.append_left _ hrec) ?_
        refine List.Perm.trans (List.Perm.append_left _ hdropPerm) ?_
        rw [chunkQuery_eq_take, List.take_append_drop]
        exact hSperm
      · rw [if_neg hfull, List.append_nil, chunk_partial_eq_sorted hfull]
        exact hSperm

/-! ## The checkpoint (`lastObjectId`) is monotone within a run -/

theorem scanConsumed_pairwise (cfg : Config) (staging : List RawRecord)
    (hnd : (staging.map RawRecord.oid).Nodup) :
    (scanConsumed cfg staging).Pairwise (fun a b => a.oid < b.oid) :=
  scanAll_pairwise _ staging hnd _ none

theorem checkpointLe_refl (o : Option Nat) : checkpointLe o o := by
  cases o with
  | none => trivial
  | some a => exact Nat.le_refl a

theorem checkpointLe_trans {a b c : Option Nat} (h1 : checkpointLe a b)
    (h2 : checkpointLe b c) : checkpointLe a c := by
  cases a with
  | none => trivial
  | some x =>
    cases b with
    | none => exact absurd h1 (by simp [checkpointLe])
    | some y =>
      cases c with
      | none => exact absurd h2 (by simp [checkpointLe])
      | some z => exact Nat.le_trans h1 h2

theorem step_lastObjectId (cfg : Config) (fails : Nat → Bool) (st : RunState)
    (d : RawRecord) : (step cfg fails st d).lastObjectId = some d.oid := by
  unfold step
  cases hn : normalizeMsisdn d.MSISDN with
  | none => rfl
  | some k =>
    simp only []
    split
    · unfold commitBatch
      split <;> rfl
    · rfl

theorem foldl_lastObjectId_cases (cfg : Config) (fails : Nat → Bool) :
    ∀ (l : List RawRecord) (st : RunState),
      (l.foldl (step cfg fails) st).lastObjectId = st.lastObjectId
      ∨ ∃ r ∈ l, (l.foldl (step cfg fails) st).lastObjectId = some r.oid := by
  intro l
  induction l with
  | nil =>
    intro st
    left
    rfl
  | cons d t ih =>
    intro st
    rw [List.foldl_cons]
    rcases ih (step cfg fails st d) with h | ⟨r, hr, h⟩
    · right
      exact ⟨d, List.mem_cons_self d t, by rw [h, step_lastObjectId]⟩
    · right
      exact ⟨r, List.mem_cons_of_mem _ hr, h⟩

theorem checkpointAfter_step (cfg : Config) (fails : Nat → Bool) (s0 : Store)
    (staging : List RawRecord) (hnd : (staging.map RawRecord.oid).Nodup) (k : Nat) :
    checkpointLe (checkpointAfter cfg fails s0 staging k)
      (checkpointAfter cfg fails s0 staging (k + 1)) := by
  by_cases hk : k < (scanConsumed cfg staging).length
  · have hget : (scanConsumed cfg staging)[k]?
        = some ((scanConsumed cfg staging)[k]) := List.getElem?_eq_getElem hk
    unfold checkpointAfter
    rw [List.take_succ, hget]
    simp only [Option.toList_some]
    rw [List.foldl_append]
    simp only [List.foldl_cons, List.foldl_nil]
    rw [step_lastObjectId]
    rcases foldl_lastObjectId_cases cfg fails
        ((scanConsumed cfg staging).take k) (initState s0) with h | ⟨r, hr, h⟩
    · rw [h]
      trivial
    · rw [h]
      have hp : ((scanConsumed cfg staging).take (k + 1)).Pairwise
          (fun a b => a.oid < b.oid) :=
        List.Pairwise.sublist (List.take_sublist _ _)
          (scanConsumed_pairwise cfg staging hnd)
      rw [List.take_succ, hget] at hp
      simp only [Option.toList_some] at hp
      rw [List.pairwise_append] at hp
      exact Nat.le_of_lt (hp.2.2 r hr _ (List.mem_singleton_self _))
  · have hle : (scanConsumed cfg staging).length ≤ k := Nat.le_of_not_lt hk
    unfold checkpointAfter
    rw [List.take_of_length_le hle, List.take_of_length_le (by omega)]
    exact checkpointLe_refl _

/-- C5: Monotonic checkpoint — the chunked scan consumes staging records in
strictly increasing `_id` order (each sub-scan is sorted ascending and
re-opened with a strictly-greater-than predicate on the last seen `_id`),
so for any two points `n ≤ m` of a run — in particular any two consecutive
commits — the checkpoint `lastObjectId` after `m` consumed records is at
least the checkpoint after `n` consumed records, under any failure
schedule. -/
theorem c5_monotonic_checkpoint (cfg : Config) (fails : Nat → Bool) (s0 : Store)
    (staging : List RawRecord) (hnd : (staging.map RawRecord.oid).Nodup) :
    (scanConsumed cfg staging).Pairwise (fun a b => a.oid < b.oid)
    ∧ ∀ n m : Nat, n ≤ m →
        checkpointLe (checkpointAfter cfg fails s0 staging n)
          (checkpointAfter cfg fails s0 staging m) := by
  refine ⟨scanConsumed_pairwise cfg staging hnd, ?_⟩
  intro n m hnm
  induction m, hnm using Nat.le_induction with
  | base => exact checkpointLe_refl _
  | succ m hm ih =>
    exact checkpointLe_trans ih (checkpointAfter_step cfg fails s0 staging hnd m)

/-- Witness for C5: on three out-of-order staging rows, the checkpoint after
three consumed records dominates the checkpoint after one. -/
theorem c5_monotonic_checkpoint_witness :
    ((stagingABC.map RawRecord.oid).Nodup)
    ∧ checkpointLe (checkpointAfter cfgTwo noFail [] stagingABC 1)
        (checkpointAfter cfgTwo noFail [] stagingABC 3) :=
  ⟨by decide,
    (c5_monotonic_checkpoint cfgTwo noFail [] stagingABC (by decide)).2 1 3
      (by decide)⟩

/-! ## Dedup: the unique `_id` index keeps one record per identity -/

theorem idMem_eq_mem_map {s : Store} {k : String} :
    idMem s k = true ↔ k ∈ s.map CanonicalRecord.id := by
  rw [idMem_eq_true_iff, List.mem_map]

theorem nodupIds_upsert {s : Store} (hnd : (s.map CanonicalRecord.id).Nodup)
    (r : CanonicalRecord) : ((upsert s r).map CanonicalRecord.id).Nodup := by
  unfold upsert
  split
  · exact hnd
  · rename_i hmem
    rw [List.map_append, List.nodup_append]
    refine ⟨hnd, List.nodup_singleton _, ?_⟩
    intro a ha hb
    rw [List.map_singleton, List.mem_singleton] at hb
    subst hb
    exact hmem (idMem_eq_mem_map.mpr ha)

theorem nodupIds_bulkUpsert {s : Store} (hnd : (s.map CanonicalRecord.id).Nodup)
    (l : List CanonicalRecord) : ((bulkUpsert s l).map CanonicalRecord.id).Nodup := by
  induction l generalizing s with
  | nil => exact hnd
  | cons r t ih =>
    have hs : bulkUpsert s (r :: t) = bulkUpsert (upsert s r) t := rfl
    rw [hs]
    exact ih (nodupIds_upsert hnd r)

theorem countP_id_eq_one {s : Store} (hnd : (s.map CanonicalRecord.id).Nodup)
    {K : String} (hmem : K ∈ s.map CanonicalRecord.id) :
    s.countP (fun c => decide (c.id = K)) = 1 := by
  induction s with
  | nil => simp at hmem
  | cons c t ih =>
    rw [List.map_cons, List.nodup_cons] at hnd
    rw [List.countP_cons]
    by_cases hck : c.id = K
    · have ht : K ∉ t.map CanonicalRecord.id := by
        rw [← hck]
        exact hnd.1
      have h0 : t.countP (fun c2 => decide (c2.id = K)) = 0 := by
        rw [List.countP_eq_zero]
        intro a ha
        simp only [decide_eq_true_eq]
        intro haK
        exact ht (haK ▸ List.mem_map_of_mem _ ha)
      simp [h0, hck]
    · have hKt : K ∈ t.map CanonicalRecord.id := by
        rcases List.mem_cons.mp hmem with h | h
        · exact absurd h.symm hck
        · exact h
      simp [hck, ih hnd.2 hKt]

theorem validRecords_map_id (cfg : Config) (l : List RawRecord) :
    (validRecords cfg l).map CanonicalRecord.id = validKeys l := by
  induction l with
  | nil => rfl
  | cons d t ih =>
    unfold validRecords validKeys at ih ⊢
    rw [List.filterMap_cons, List.filterMap_cons]
    cases hn : normalizeMsisdn d.MSISDN with
    | none => simpa using ih
    | some k =>
      simp only [Option.map_some']
      rw [List.map_cons, ih]
      rfl

theorem scanConsumed_perm (cfg : Config) (staging : List RawRecord)
    (hnd : (staging.map RawRecord.oid).Nodup) (hb : 0 < cfg.processBatchSize) :
    (scanConsumed cfg staging).Perm staging := by
  have hfilter : staging.filter (afterCheckpoint none) = staging := by
    rw [List.filter_eq_self]
    intro a _
    rfl
  have hchunk : 0 < chunkSizeOf cfg := by
    unfold chunkSizeOf
    omega
  have hlen : (staging.filter (afterCheckpoint none)).length ≤ staging.length := by
    rw [hfilter]
  have h := scanAll_perm (chunkSizeOf cfg) staging hnd hchunk staging.length none hlen
  rw [hfilter] at h
  exact h

/-- C3 (amended): dedup correctness holds at the target store but not at
the counters of the primary variant.  For a staging area with `k ≥ 1`
occurrences of a valid business key `K`, a failure-free primary run into an
empty target store ends with EXACTLY ONE canonical record carrying identity
`K` (the store's identities are globally unique) — but this is achieved by
the idempotent `$setOnInsert` upsert alone: the primary variant has no
DedupSet lookup and never increments its `duplicates` counter (see the
counterexample).  Only variant 2 implements the claimed DedupSet behaviour:
when the key is already in `msisdnSet`, its step returns without producing
any output record and increments `duplicates` by one. -/
theorem c3_dedup_amended (cfg : Config) (staging : List RawRecord) (K : String)
    (hb : 0 < cfg.processBatchSize)
    (hnd : (staging.map RawRecord.oid).Nodup)
    (hK : K ∈ validKeys staging) :
    (primaryRun cfg noFail [] staging).store.countP (fun c => decide (c.id = K)) = 1
    ∧ ((primaryRun cfg noFail [] staging).store.map CanonicalRecord.id).Nodup
    ∧ ∀ (cfg2 : ConfigV2) (st : RunStateV2) (doc : RawRecord) (k : String),
        normalizeMsisdnV2 doc.MSISDN = some k → k ∈ st.msisdnSet →
        stepV2 cfg2 st doc
          = { st with duplicates := st.duplicates + 1, consumed := st.consumed + 1 } := by
  have hperm := scanConsumed_perm cfg staging hnd hb
  have hKc : K ∈ validKeys (scanConsumed cfg staging) := by
    have hp := hperm.filterMap (fun d => normalizeMsisdn d.MSISDN)
    exact hp.mem_iff.mpr hK
  have hstore := primaryRun_store cfg [] staging
  have hnodup : ((primaryRun cfg noFail [] staging).store.map CanonicalRecord.id).Nodup := by
    rw [hstore]
    exact nodupIds_bulkUpsert (by simp) _
  refine ⟨?_, hnodup, ?_⟩
  · apply countP_id_eq_one hnodup
    rw [hstore, ← idMem_eq_mem_map, idMem_bulkUpsert]
    have hany : (validRecords cfg (scanConsumed cfg staging)).any
        (fun r => decide (r.id = K)) = true := by
      rw [List.any_eq_true]
      rw [← validRecords_map_id cfg] at hKc
      obtain ⟨r, hr, hid⟩ := List.mem_map.mp hKc
      exact ⟨r, hr, by simp [hid]⟩
    rw [hany, Bool.or_true]
  · intro cfg2 st doc k hk hkset
    simp [stepV2, hk, hkset]

/-- C3 counterexample: the spec's own scenario staging area
`["263771000001", "", "263771000001"]` (two repeats of one key) run through
the primary variant: the target store does end with exactly one record for
the key, but the `duplicates` counter stays 0 (the claim requires it to be
incremented for each repeat — there is no DedupSet lookup in the primary
variant; the repeat is even counted as `processed`). -/
theorem c3_dedup_counterexample :
    (primaryRun cfgTwo noFail [] stagingDup).duplicates = 0
    ∧ (primaryRun cfgTwo noFail [] stagingDup).store = [mkCanonical 7 "263771000001"]
    ∧ (primaryRun cfgTwo noFail [] stagingDup).processed = 2 := by
  decide

/-- Witness for C3 (amended) on the spec's scenario staging area. -/
theorem c3_dedup_amended_witness :
    (0 < cfgTwo.processBatchSize) ∧ ((stagingDup.map RawRecord.oid).Nodup)
    ∧ ("263771000001" ∈ validKeys stagingDup)
    ∧ (primaryRun cfgTwo noFail [] stagingDup).store.countP
        (fun c => decide (c.id = "263771000001")) = 1 :=
  ⟨by decide, by decide, by decide,
    (c3_dedup_amended cfgTwo stagingDup "263771000001" (by decide) (by decide)
      (by decide)).1⟩
